import Mathlib

set_option maxRecDepth 8000

/-!
Shallow embedding of the RNA-Classifier-API validation and feature-extraction
core (src/api/utils/validators.py and src/api/services/classifier.py).

Strings are modelled as lists of characters; Python's str.strip / str.upper are
modelled for ASCII input (Python extends both to Unicode, but every constant the
code compares against is ASCII, and the claims below quantify over inputs where
the ASCII behaviour is the relevant one).  Python floats are modelled as exact
rationals.  A value passed to validate_rna_sequence that may be None or a
non-string is modelled by the PyInput type.
-/

namespace RNAClassifier

/-- ASCII whitespace, as stripped by Python's str.strip. -/
def isPySpace (c : Char) : Bool :=
  c = ' ' || c = '\t' || c = '\n' || c = '\r' || c = '\x0b' || c = '\x0c'

/-- Python str.strip: remove leading and trailing whitespace. -/
def strip (s : List Char) : List Char :=
  ((s.dropWhile isPySpace).reverse.dropWhile isPySpace).reverse

/-- Python str.upper (ASCII). -/
def upper (s : List Char) : List Char :=
  s.map Char.toUpper

/-- self.valid_bases = set('AUGC') -/
def valid_bases : List Char := ['A', 'U', 'G', 'C']

/-- self.min_length = 1 -/
def min_length : Nat := 1

/-- self.max_length = 50000 -/
def max_length : Nat := 50000

/-- self.min_gc_content = 0.0 -/
def min_gc_content : ℚ := 0

/-- self.max_gc_content = 1.0 -/
def max_gc_content : ℚ := 1

/-- The input to validate_rna_sequence: None, a non-string value, or a string. -/
inductive PyInput where
  | none : PyInput
  | nonString : PyInput
  | str (s : List Char) : PyInput

/-- The error messages validate_rna_sequence can append, with the data
interpolated into each message carried as the constructor's argument. -/
inductive VError where
  | seqNone : VError
  | notAString : VError
  | emptySequence : VError
  | tooShort (minLen : Nat) : VError
  | tooLong (maxLen : Nat) : VError
  | invalidBasesIncluded (bases : List Char) : VError
  | abnormalRepetition (runLen : Nat) : VError
  | gcOutOfRange (gc : ℚ) : VError
deriving DecidableEq

/-- Loop body of _check_repetitive_sequence: walks the rest of the string,
carrying the previous character, the current run length and the running max. -/
def repScanAux : List Char → Char → Nat → Nat → Nat
  | [], _, _, maxRepeat => maxRepeat
  | c :: rest, prev, currentRepeat, maxRepeat =>
    if c = prev then
      repScanAux rest c (currentRepeat + 1) (max maxRepeat (currentRepeat + 1))
    else
      repScanAux rest c 1 maxRepeat

/-- RNAValidator._check_repetitive_sequence: longest run of one repeated
character; 0 for the empty string, computed by a left-to-right scan comparing
each character with its predecessor. -/
def _check_repetitive_sequence : List Char → Nat
  | [] => 0
  | c :: rest => repScanAux rest c 1 1

/-- RNAValidator._calculate_gc_content: (count G + count C) / length,
0.0 for the empty string. -/
def _calculate_gc_content (sequence : List Char) : ℚ :=
  if sequence.length = 0 then 0
  else ((sequence.count 'G' + sequence.count 'C' : Nat) : ℚ) / (sequence.length : ℚ)

/-- sorted(set(cleaned_sequence) - self.valid_bases): the distinct characters
of the cleaned sequence outside the alphabet, in ascending order. -/
def invalidBasesOf (cleaned : List Char) : List Char :=
  ((cleaned.filter (fun c => !(c ∈ valid_bases : Bool))).dedup).insertionSort (· ≤ ·)

/-- Length checks (validators.py lines 49-54). -/
def lengthErrors (cleaned : List Char) : List VError :=
  (if cleaned.length < min_length then [VError.tooShort min_length] else []) ++
  (if cleaned.length > max_length then [VError.tooLong max_length] else [])

/-- Alphabet check (validators.py lines 56-59). -/
def alphabetErrors (cleaned : List Char) : List VError :=
  if invalidBasesOf cleaned ≠ [] then [VError.invalidBasesIncluded (invalidBasesOf cleaned)] else []

/-- Repetition check (validators.py lines 61-66). -/
def repeatErrors (cleaned : List Char) : List VError :=
  if cleaned.length > 0 ∧ _check_repetitive_sequence cleaned > 50 then
    [VError.abnormalRepetition (_check_repetitive_sequence cleaned)]
  else []

/-- GC-content check (validators.py lines 68-72): runs only on a non-empty
cleaned sequence with no invalid bases. -/
def gcErrors (cleaned : List Char) : List VError :=
  if cleaned.length > 0 ∧ invalidBasesOf cleaned = [] ∧
      (_calculate_gc_content cleaned < min_gc_content ∨
        _calculate_gc_content cleaned > max_gc_content) then
    [VError.gcOutOfRange (_calculate_gc_content cleaned)]
  else []

/-- The accumulated error list over the cleaned sequence, in check order. -/
def validationErrors (cleaned : List Char) : List VError :=
  lengthErrors cleaned ++ alphabetErrors cleaned ++ repeatErrors cleaned ++ gcErrors cleaned

/-- RNAValidator.validate_rna_sequence: (is_valid, error list). -/
def validate_rna_sequence (input : PyInput) : Bool × List VError :=
  match input with
  | .none => (false, [VError.seqNone])
  | .nonString => (false, [VError.notAString])
  | .str sequence =>
    if strip sequence = [] then
      (false, [VError.emptySequence])
    else
      let cleaned_sequence := upper (strip sequence)
      ((validationErrors cleaned_sequence).isEmpty, validationErrors cleaned_sequence)

/-- The dictionary returned by RNAValidator.get_sequence_statistics. -/
structure SequenceStatistics where
  length : Nat
  countA : Nat
  countU : Nat
  countG : Nat
  countC : Nat
  freqA : ℚ
  freqU : ℚ
  freqG : ℚ
  freqC : ℚ
  gc_content : ℚ
  au_content : ℚ
  max_repeat_length : Nat
deriving DecidableEq

/-- RNAValidator.get_sequence_statistics: uppercases (without trimming) and
returns counts, frequencies, GC/AU content and the longest repeat; an empty
input yields the empty dictionary (modelled as Option.none). -/
def get_sequence_statistics (sequence : List Char) : Option SequenceStatistics :=
  if sequence = [] then Option.none
  else
    let cleaned := upper sequence
    let length := cleaned.length
    if length = 0 then Option.none
    else
      let aCount := cleaned.count 'A'
      let uCount := cleaned.count 'U'
      let gCount := cleaned.count 'G'
      let cCount := cleaned.count 'C'
      Option.some
        { length := length
          countA := aCount
          countU := uCount
          countG := gCount
          countC := cCount
          freqA := (aCount : ℚ) / (length : ℚ)
          freqU := (uCount : ℚ) / (length : ℚ)
          freqG := (gCount : ℚ) / (length : ℚ)
          freqC := (cCount : ℚ) / (length : ℚ)
          gc_content := ((gCount + cCount : Nat) : ℚ) / (length : ℚ)
          au_content := ((aCount + uCount : Nat) : ℚ) / (length : ℚ)
          max_repeat_length := _check_repetitive_sequence cleaned }

/-- The 10 fixed dinucleotide pairs of RNAMLClassifier._extract_features. -/
def dimers : List (Char × Char) :=
  [('A','A'), ('A','U'), ('A','G'), ('A','C'), ('U','U'),
   ('U','G'), ('U','C'), ('G','G'), ('G','C'), ('C','C')]

/-- Overlapping occurrences of a dimer: the loop
for i in range(len(sequence) - 1): if sequence[i:i+2] == dimer: count += 1. -/
def dimerCount (sequence : List Char) (d : Char × Char) : Nat :=
  (sequence.zip sequence.tail).count d

/-- dimer_freqs.append(count / (length - 1) if length > 1 else 0). -/
def dimerFreq (sequence : List Char) (d : Char × Char) : ℚ :=
  if sequence.length > 1 then (dimerCount sequence d : ℚ) / ((sequence.length : ℚ) - 1)
  else 0

/-- RNAMLClassifier._extract_features: uppercases, returns np.zeros(20) for the
empty string, and otherwise the 9 scalar features followed by the 10 dimer
frequencies. -/
def _extract_features (sequence0 : List Char) : List ℚ :=
  let sequence := upper sequence0
  let length := sequence.length
  if length = 0 then
    List.replicate 20 0
  else
    let a_count := sequence.count 'A'
    let u_count := sequence.count 'U'
    let g_count := sequence.count 'G'
    let c_count := sequence.count 'C'
    [(length : ℚ),
     (a_count : ℚ) / (length : ℚ),
     (u_count : ℚ) / (length : ℚ),
     (g_count : ℚ) / (length : ℚ),
     (c_count : ℚ) / (length : ℚ),
     ((g_count + c_count : Nat) : ℚ) / (length : ℚ),
     ((a_count + u_count : Nat) : ℚ) / (length : ℚ),
     ((a_count + g_count : Nat) : ℚ) / (length : ℚ),
     ((u_count + c_count : Nat) : ℚ) / (length : ℚ)]
      ++ dimers.map (dimerFreq sequence)

/-- Recognizer for the alphabet-violation error message. -/
def isAlphabetError : VError → Bool
  | .invalidBasesIncluded _ => true
  | _ => false

/-!  ### Helper lemmas  -/

lemma dropWhile_eq_self_of_no (p : Char → Bool) {s : List Char}
    (h : ∀ c ∈ s, p c = false) : s.dropWhile p = s := by
  cases s with
  | nil => rfl
  | cons a t =>
    exact List.dropWhile_cons_of_neg (by simp [h a (List.mem_cons_self a t)])

lemma strip_eq_self_of_no_space {s : List Char}
    (h : ∀ c ∈ s, isPySpace c = false) : strip s = s := by
  unfold strip
  rw [dropWhile_eq_self_of_no _ h,
    dropWhile_eq_self_of_no _ (fun c hc => h c (by simpa using hc)),
    List.reverse_reverse]

lemma mem_valid_cases {c : Char} (h : c ∈ valid_bases) :
    c = 'A' ∨ c = 'U' ∨ c = 'G' ∨ c = 'C' := by
  simpa [valid_bases] using h

lemma no_space_of_valid {s : List Char} (h : ∀ c ∈ s, c ∈ valid_bases) :
    ∀ c ∈ s, isPySpace c = false := by
  intro c hc
  rcases mem_valid_cases (h c hc) with rfl | rfl | rfl | rfl <;> rfl

lemma upper_eq_self_of_valid {s : List Char} (h : ∀ c ∈ s, c ∈ valid_bases) :
    upper s = s := by
  unfold upper
  induction s with
  | nil => rfl
  | cons a t ih =>
    have ha : a.toUpper = a := by
      rcases mem_valid_cases (h a (List.mem_cons_self a t)) with rfl | rfl | rfl | rfl <;> decide
    simp only [List.map_cons, ha, List.cons.injEq, true_and]
    exact ih (fun c hc => h c (List.mem_cons_of_mem a hc))

lemma counts_sum_eq_countP (s : List Char) :
    s.count 'A' + s.count 'U' + s.count 'G' + s.count 'C'
      = s.countP (fun c => (c ∈ valid_bases : Bool)) := by
  induction s with
  | nil => rfl
  | cons a t ih =>
    by_cases hm : a ∈ valid_bases
    · rcases mem_valid_cases hm with rfl | rfl | rfl | rfl <;>
        (simp [List.count_cons, List.countP_cons, valid_bases] at ih ⊢; omega)
    · have hA : ¬ (a = 'A') := fun e => hm (by rw [e]; decide)
      have hU : ¬ (a = 'U') := fun e => hm (by rw [e]; decide)
      have hG : ¬ (a = 'G') := fun e => hm (by rw [e]; decide)
      have hC : ¬ (a = 'C') := fun e => hm (by rw [e]; decide)
      simp [List.count_cons, List.countP_cons, valid_bases, hA, hU, hG, hC] at ih ⊢
      omega

lemma counts_sum_eq_length {s : List Char} (h : ∀ c ∈ s, c ∈ valid_bases) :
    s.count 'A' + s.count 'U' + s.count 'G' + s.count 'C' = s.length := by
  rw [counts_sum_eq_countP]
  exact List.countP_eq_length.mpr (fun a ha => by simpa using h a ha)

lemma counts_sum_lt_length {s : List Char} {c : Char} (hc : c ∈ s)
    (hbad : c ∉ valid_bases) :
    s.count 'A' + s.count 'U' + s.count 'G' + s.count 'C' < s.length := by
  rw [counts_sum_eq_countP]
  refine lt_of_le_of_ne (List.countP_le_length _) ?_
  intro he
  exact hbad (by simpa using List.countP_eq_length.mp he c hc)

lemma countGC_le_length (s : List Char) :
    s.count 'G' + s.count 'C' ≤ s.length := by
  have h1 := counts_sum_eq_countP s
  have h2 : s.countP (fun c => (c ∈ valid_bases : Bool)) ≤ s.length :=
    List.countP_le_length _
  omega

lemma gc_content_nonneg (s : List Char) : 0 ≤ _calculate_gc_content s := by
  unfold _calculate_gc_content
  split
  · exact le_refl 0
  · positivity

lemma gc_content_le_one (s : List Char) : _calculate_gc_content s ≤ 1 := by
  unfold _calculate_gc_content
  split
  · exact zero_le_one
  · rename_i hlen
    have hpos : 0 < s.length := Nat.pos_of_ne_zero hlen
    rw [div_le_one (by exact_mod_cast hpos)]
    exact_mod_cast countGC_le_length s

lemma gcErrors_eq_nil (cleaned : List Char) : gcErrors cleaned = [] := by
  unfold gcErrors
  rw [if_neg]
  rintro ⟨-, -, h | h⟩
  · exact absurd h (not_lt.mpr (gc_content_nonneg cleaned))
  · exact absurd h (not_lt.mpr (gc_content_le_one cleaned))

lemma validationErrors_eq (cleaned : List Char) :
    validationErrors cleaned =
      lengthErrors cleaned ++ alphabetErrors cleaned ++ repeatErrors cleaned := by
  rw [validationErrors, gcErrors_eq_nil, List.append_nil]

lemma validate_str_of_ne {s : List Char} (h : strip s ≠ []) :
    validate_rna_sequence (.str s) =
      ((lengthErrors (upper (strip s)) ++ alphabetErrors (upper (strip s)) ++
          repeatErrors (upper (strip s))).isEmpty,
        lengthErrors (upper (strip s)) ++ alphabetErrors (upper (strip s)) ++
          repeatErrors (upper (strip s))) := by
  simp only [validate_rna_sequence]
  rw [if_neg h, validationErrors_eq]

lemma invalidBasesOf_eq_nil_iff (cleaned : List Char) :
    invalidBasesOf cleaned = [] ↔ ∀ c ∈ cleaned, c ∈ valid_bases := by
  unfold invalidBasesOf
  rw [← List.length_eq_zero, List.length_insertionSort, List.length_eq_zero,
    List.dedup_eq_nil, List.filter_eq_nil_iff]
  simp

lemma abnormal_not_mem_lengthErrors (cleaned : List Char) (r : Nat) :
    VError.abnormalRepetition r ∉ lengthErrors cleaned := by
  unfold lengthErrors
  split_ifs <;> simp

lemma abnormal_not_mem_alphabetErrors (cleaned : List Char) (r : Nat) :
    VError.abnormalRepetition r ∉ alphabetErrors cleaned := by
  unfold alphabetErrors
  split_ifs <;> simp

lemma abnormal_mem_repeatErrors_iff (cleaned : List Char) (r : Nat) :
    VError.abnormalRepetition r ∈ repeatErrors cleaned ↔
      (cleaned.length > 0 ∧ _check_repetitive_sequence cleaned > 50) ∧
        r = _check_repetitive_sequence cleaned := by
  unfold repeatErrors
  split_ifs with h <;> simp [h]

lemma gcError_not_mem_lengthErrors (cleaned : List Char) (q : ℚ) :
    VError.gcOutOfRange q ∉ lengthErrors cleaned := by
  unfold lengthErrors
  split_ifs <;> simp

lemma gcError_not_mem_alphabetErrors (cleaned : List Char) (q : ℚ) :
    VError.gcOutOfRange q ∉ alphabetErrors cleaned := by
  unfold alphabetErrors
  split_ifs <;> simp

lemma gcError_not_mem_repeatErrors (cleaned : List Char) (q : ℚ) :
    VError.gcOutOfRange q ∉ repeatErrors cleaned := by
  unfold repeatErrors
  split_ifs <;> simp

lemma countP_alpha_lengthErrors (cleaned : List Char) :
    (lengthErrors cleaned).countP isAlphabetError = 0 := by
  unfold lengthErrors
  split_ifs <;> simp [isAlphabetError]

lemma countP_alpha_repeatErrors (cleaned : List Char) :
    (repeatErrors cleaned).countP isAlphabetError = 0 := by
  unfold repeatErrors
  split_ifs <;> simp [isAlphabetError]

lemma countP_alpha_alphabetErrors {cleaned : List Char}
    (h : invalidBasesOf cleaned ≠ []) :
    (alphabetErrors cleaned).countP isAlphabetError = 1 := by
  unfold alphabetErrors
  rw [if_pos h]
  simp [isAlphabetError]

lemma alphabetError_mem_alphabetErrors {cleaned : List Char}
    (h : invalidBasesOf cleaned ≠ []) :
    VError.invalidBasesIncluded (invalidBasesOf cleaned) ∈ alphabetErrors cleaned := by
  unfold alphabetErrors
  rw [if_pos h]
  exact List.mem_singleton_self _

lemma alphabetErrors_ne_nil {cleaned : List Char}
    (h : invalidBasesOf cleaned ≠ []) : alphabetErrors cleaned ≠ [] := by
  unfold alphabetErrors
  rw [if_pos h]
  simp

lemma space_char_facts (c : Char) (h : isPySpace c = true) :
    Char.toUpper c = c ∧ c ∉ valid_bases := by
  unfold isPySpace at h
  simp only [Bool.or_eq_true, decide_eq_true_eq] at h
  rcases h with ((((h | h) | h) | h) | h) | h <;> subst h <;> exact ⟨by decide, by decide⟩

lemma length_upper (s : List Char) : (upper s).length = s.length := by
  rw [upper, List.length_map]

lemma dimerCount_le (s : List Char) (d : Char × Char) :
    dimerCount s d ≤ s.length - 1 := by
  unfold dimerCount
  have h1 := List.count_le_length d (s.zip s.tail)
  simp only [List.length_zip, List.length_tail] at h1
  omega

lemma dimerFreq_nonneg (s : List Char) (d : Char × Char) : 0 ≤ dimerFreq s d := by
  unfold dimerFreq
  split
  · rename_i h
    have hd : (0:ℚ) < (s.length : ℚ) - 1 := by
      have h1 : (1:ℚ) < (s.length : ℚ) := by exact_mod_cast h
      linarith
    exact div_nonneg (by positivity) (le_of_lt hd)
  · exact le_refl 0

lemma dimerFreq_le_one (s : List Char) (d : Char × Char) : dimerFreq s d ≤ 1 := by
  unfold dimerFreq
  split
  · rename_i h
    have hd : (0:ℚ) < (s.length : ℚ) - 1 := by
      have h1 : (1:ℚ) < (s.length : ℚ) := by exact_mod_cast h
      linarith
    rw [div_le_one hd]
    have hc : (dimerCount s d : ℚ) ≤ ((s.length - 1 : ℕ) : ℚ) := by
      exact_mod_cast dimerCount_le s d
    rw [Nat.cast_sub (by omega)] at hc
    simpa using hc
  · exact zero_le_one

/-!  ### The claims  -/

/-- C1 (code bug): the spec promises that the feature extractor returns exactly
19 values for every input, with the empty string mapping to a zero vector of
length 19; the code instead returns np.zeros(20) — a zero vector of length
20 — on the empty string, while every non-empty input yields 19 features (the
19 feature names listed in get_feature_importance confirm 19 is the intent). -/
theorem extract_empty_returns_twenty_zeros :
    _extract_features [] = List.replicate 20 0 ∧
      (_extract_features []).length = 20 ∧
      (_extract_features ['A']).length = 19 := by
  refine ⟨rfl, rfl, rfl⟩

/-- C2: any sequence over the alphabet {A,U,G,C} with length in [1, 50000] and
longest run of one repeated character at most 50 validates with is_valid = true
and an empty error list. -/
theorem validity_monotonicity (s : List Char)
    (halpha : ∀ c ∈ s, c ∈ valid_bases)
    (hmin : 1 ≤ s.length) (hmax : s.length ≤ 50000)
    (hrep : _check_repetitive_sequence s ≤ 50) :
    validate_rna_sequence (.str s) = (true, []) := by
  have hstrip : strip s = s := strip_eq_self_of_no_space (no_space_of_valid halpha)
  have hupper : upper s = s := upper_eq_self_of_valid halpha
  have hne : s ≠ [] := by
    intro e
    rw [e] at hmin
    simp at hmin
  rw [validate_str_of_ne (by rw [hstrip]; exact hne), hstrip, hupper]
  have hlenE : lengthErrors s = [] := by
    unfold lengthErrors
    rw [if_neg (by unfold min_length; omega), if_neg (by unfold max_length; omega)]
    rfl
  have halphaE : alphabetErrors s = [] := by
    unfold alphabetErrors
    rw [if_neg (by simp only [ne_eq, not_not]; exact (invalidBasesOf_eq_nil_iff s).mpr halpha)]
  have hrepE : repeatErrors s = [] := by
    unfold repeatErrors
    rw [if_neg]
    rintro ⟨-, h⟩
    omega
  rw [hlenE, halphaE, hrepE]
  rfl

/-- C2 witness: the concrete sequence AUGC satisfies all hypotheses and
validates cleanly. -/
theorem validity_monotonicity_witness :
    ((∀ c ∈ (['A','U','G','C'] : List Char), c ∈ valid_bases) ∧
      1 ≤ (['A','U','G','C'] : List Char).length ∧
      (['A','U','G','C'] : List Char).length ≤ 50000 ∧
      _check_repetitive_sequence ['A','U','G','C'] ≤ 50) ∧
    validate_rna_sequence (.str ['A','U','G','C']) = (true, []) :=
  ⟨⟨by decide, by decide, by decide, by decide⟩,
    validity_monotonicity ['A','U','G','C'] (by decide) (by decide) (by decide) (by decide)⟩

/-- C3: for every input (None, non-string, or any string), is_valid is true
exactly when the returned error list is empty. -/
theorem validity_iff_errors_empty (v : PyInput) :
    (validate_rna_sequence v).1 = true ↔ (validate_rna_sequence v).2 = [] := by
  cases v with
  | none => simp [validate_rna_sequence]
  | nonString => simp [validate_rna_sequence]
  | str s =>
    simp only [validate_rna_sequence]
    split
    · simp
    · simp [List.isEmpty_iff]

/-- C8: a None input, a non-string input, and a string that is empty after
trimming each short-circuit with is_valid = false and exactly the one
corresponding error. -/
theorem input_shape_short_circuit :
    validate_rna_sequence PyInput.none = (false, [VError.seqNone]) ∧
    validate_rna_sequence PyInput.nonString = (false, [VError.notAString]) ∧
    ∀ s : List Char, strip s = [] →
      validate_rna_sequence (.str s) = (false, [VError.emptySequence]) := by
  refine ⟨rfl, rfl, ?_⟩
  intro s h
  simp only [validate_rna_sequence]
  rw [if_pos h]

/-- C8 witness: a one-space string is empty after trimming and yields exactly
the single empty-sequence error. -/
theorem input_shape_short_circuit_witness :
    strip [' '] = [] ∧
      validate_rna_sequence (.str [' ']) = (false, [VError.emptySequence]) :=
  ⟨by decide, input_shape_short_circuit.2.2 [' '] (by decide)⟩

/-- C9: the GC-content-out-of-range error never appears in the error list, for
any input: the check runs only when no invalid base was found, and GC content
is then necessarily within [0.0, 1.0]. -/
theorem gc_range_error_unreachable (v : PyInput) (q : ℚ) :
    VError.gcOutOfRange q ∉ (validate_rna_sequence v).2 := by
  cases v with
  | none => simp [validate_rna_sequence]
  | nonString => simp [validate_rna_sequence]
  | str s =>
    simp only [validate_rna_sequence]
    split
    · simp
    · show VError.gcOutOfRange q ∉ validationErrors (upper (strip s))
      rw [validationErrors_eq]
      intro hmem
      simp only [List.mem_append] at hmem
      rcases hmem with (h | h) | h
      · exact gcError_not_mem_lengthErrors _ _ h
      · exact gcError_not_mem_alphabetErrors _ _ h
      · exact gcError_not_mem_repeatErrors _ _ h

/-- C4: once the trimmed input is non-empty the repeat scan runs regardless of
any alphabet violation, a repeat-anomaly error carrying run length r appears
exactly when the longest run of the normalized sequence exceeds 50 (and then r
is that run length); concretely a string of 60 'A's is rejected with exactly
the repeat-anomaly error citing run length 60. -/
theorem repeat_anomaly_check :
    (∀ s : List Char, strip s ≠ [] →
      ((VError.abnormalRepetition (_check_repetitive_sequence (upper (strip s))) ∈
            (validate_rna_sequence (.str s)).2 ↔
          50 < _check_repetitive_sequence (upper (strip s))) ∧
        ∀ r : Nat, VError.abnormalRepetition r ∈ (validate_rna_sequence (.str s)).2 →
          r = _check_repetitive_sequence (upper (strip s)))) ∧
    validate_rna_sequence (.str (List.replicate 60 'A')) =
      (false, [VError.abnormalRepetition 60]) := by
  constructor
  · intro s hs
    have hpos : 0 < (upper (strip s)).length := by
      rw [length_upper]
      exact List.length_pos.mpr hs
    rw [validate_str_of_ne hs]
    constructor
    · simp only [List.mem_append]
      constructor
      · rintro ((h | h) | h)
        · exact absurd h (abnormal_not_mem_lengthErrors _ _)
        · exact absurd h (abnormal_not_mem_alphabetErrors _ _)
        · exact ((abnormal_mem_repeatErrors_iff _ _).mp h).1.2
      · intro h50
        right
        exact (abnormal_mem_repeatErrors_iff _ _).mpr ⟨⟨hpos, h50⟩, rfl⟩
    · intro r hr
      simp only [List.mem_append] at hr
      rcases hr with (h | h) | h
      · exact absurd h (abnormal_not_mem_lengthErrors _ _)
      · exact absurd h (abnormal_not_mem_alphabetErrors _ _)
      · exact ((abnormal_mem_repeatErrors_iff _ _).mp h).2
  · rw [validate_str_of_ne (by decide)]
    decide

/-- C4 witness: the universally quantified part applied to the one-character
string A, whose longest run is 1. -/
theorem repeat_anomaly_check_witness :
    strip ['A'] ≠ [] ∧
      (VError.abnormalRepetition 1 ∈ (validate_rna_sequence (.str ['A'])).2 ↔ 50 < 1) := by
  refine ⟨by decide, ?_⟩
  have h := (repeat_anomaly_check.1 ['A'] (by decide)).1
  have e : _check_repetitive_sequence (upper (strip ['A'])) = 1 := by decide
  rw [e] at h
  exact h

/-- C5 counterexample: the claim quantifies over raw sequences, but validate
normalizes first — the one-character string containing lowercase a (a character
outside {A,U,G,C}) uppercases to A and is accepted with no errors. -/
theorem alphabet_rejection_counterexample :
    ('a' ∉ valid_bases) ∧ validate_rna_sequence (.str ['a']) = (true, []) := by
  refine ⟨by decide, ?_⟩
  rw [validate_str_of_ne (by decide)]
  decide

/-- C5 amended: for every string whose normalized (trimmed, uppercased) form
contains a character outside {A,U,G,C}, validate reports is_valid = false and
the error list carries exactly one alphabet error, listing the distinct
offending characters of the normalized form in sorted order. -/
theorem alphabet_rejection_amended (s : List Char)
    (h : ∃ c ∈ upper (strip s), c ∉ valid_bases) :
    (validate_rna_sequence (.str s)).1 = false ∧
      VError.invalidBasesIncluded (invalidBasesOf (upper (strip s))) ∈
        (validate_rna_sequence (.str s)).2 ∧
      (validate_rna_sequence (.str s)).2.countP isAlphabetError = 1 ∧
      (invalidBasesOf (upper (strip s))).Sorted (· ≤ ·) ∧
      (invalidBasesOf (upper (strip s))).Nodup := by
  obtain ⟨c, hc, hbad⟩ := h
  have hsne : strip s ≠ [] := by
    intro e
    rw [e] at hc
    simp [upper] at hc
  have hinv : invalidBasesOf (upper (strip s)) ≠ [] := by
    intro e
    exact hbad ((invalidBasesOf_eq_nil_iff _).mp e c hc)
  rw [validate_str_of_ne hsne]
  refine ⟨?_, ?_, ?_, ?_, ?_⟩
  · simp only [List.isEmpty_eq_false, ne_eq, List.append_eq_nil]
    rintro ⟨⟨-, h2⟩, -⟩
    exact alphabetErrors_ne_nil hinv h2
  · exact List.mem_append.mpr
      (Or.inl (List.mem_append.mpr (Or.inr (alphabetError_mem_alphabetErrors hinv))))
  · rw [List.countP_append, List.countP_append, countP_alpha_lengthErrors,
      countP_alpha_repeatErrors, countP_alpha_alphabetErrors hinv]
  · exact List.sorted_insertionSort _ _
  · exact ((List.perm_insertionSort _ _).nodup_iff).mpr (List.nodup_dedup _)

/-- C5 amended witness: the one-character string X, whose normalized form
contains the invalid base X. -/
theorem alphabet_rejection_amended_witness :
    (∃ c ∈ upper (strip ['X']), c ∉ valid_bases) ∧
      (validate_rna_sequence (.str ['X'])).1 = false ∧
      VError.invalidBasesIncluded (invalidBasesOf (upper (strip ['X']))) ∈
        (validate_rna_sequence (.str ['X'])).2 := by
  have h := alphabet_rejection_amended ['X'] ⟨'X', by decide, by decide⟩
  exact ⟨⟨'X', by decide, by decide⟩, h.1, h.2.1⟩

/-- C6: for a non-empty alphabet-conformant sequence, the statistics satisfy
count conservation, base frequencies summing to one, and GC content plus AU
content equal to one. -/
theorem statistics_count_conservation (s : List Char) (hne : s ≠ [])
    (halpha : ∀ c ∈ s, c ∈ valid_bases) :
    ∃ st, get_sequence_statistics s = Option.some st ∧
      st.countA + st.countU + st.countG + st.countC = st.length ∧
      st.freqA + st.freqU + st.freqG + st.freqC = 1 ∧
      st.gc_content + st.au_content = 1 := by
  have hupper : upper s = s := upper_eq_self_of_valid halpha
  have hlen : s.length ≠ 0 := fun e => hne (List.length_eq_zero.mp e)
  have hlenQ : (s.length : ℚ) ≠ 0 := by exact_mod_cast hlen
  have hsum := counts_sum_eq_length halpha
  refine ⟨{ length := s.length
            countA := s.count 'A'
            countU := s.count 'U'
            countG := s.count 'G'
            countC := s.count 'C'
            freqA := (s.count 'A' : ℚ) / (s.length : ℚ)
            freqU := (s.count 'U' : ℚ) / (s.length : ℚ)
            freqG := (s.count 'G' : ℚ) / (s.length : ℚ)
            freqC := (s.count 'C' : ℚ) / (s.length : ℚ)
            gc_content := ((s.count 'G' + s.count 'C' : Nat) : ℚ) / (s.length : ℚ)
            au_content := ((s.count 'A' + s.count 'U' : Nat) : ℚ) / (s.length : ℚ)
            max_repeat_length := _check_repetitive_sequence s }, ?_, hsum, ?_, ?_⟩
  · simp only [get_sequence_statistics, hupper]
    rw [if_neg hne, if_neg hlen]
  · show (s.count 'A' : ℚ) / (s.length : ℚ) + (s.count 'U' : ℚ) / (s.length : ℚ) +
      (s.count 'G' : ℚ) / (s.length : ℚ) + (s.count 'C' : ℚ) / (s.length : ℚ) = 1
    rw [div_add_div_same, div_add_div_same, div_add_div_same]
    rw [show (s.count 'A' : ℚ) + (s.count 'U' : ℚ) + (s.count 'G' : ℚ) + (s.count 'C' : ℚ)
        = ((s.count 'A' + s.count 'U' + s.count 'G' + s.count 'C' : Nat) : ℚ) by push_cast; ring]
    rw [hsum]
    exact div_self hlenQ
  · show ((s.count 'G' + s.count 'C' : Nat) : ℚ) / (s.length : ℚ) +
      ((s.count 'A' + s.count 'U' : Nat) : ℚ) / (s.length : ℚ) = 1
    rw [div_add_div_same]
    rw [show ((s.count 'G' + s.count 'C' : Nat) : ℚ) + ((s.count 'A' + s.count 'U' : Nat) : ℚ)
        = ((s.count 'A' + s.count 'U' + s.count 'G' + s.count 'C' : Nat) : ℚ) by push_cast; ring]
    rw [hsum]
    exact div_self hlenQ

/-- C6 witness: the statistics invariants instantiated on the sequence AUGC. -/
theorem statistics_count_conservation_witness :
    ((['A','U','G','C'] : List Char) ≠ [] ∧
      (∀ c ∈ (['A','U','G','C'] : List Char), c ∈ valid_bases)) ∧
    ∃ st, get_sequence_statistics ['A','U','G','C'] = Option.some st ∧
      st.countA + st.countU + st.countG + st.countC = st.length ∧
      st.freqA + st.freqU + st.freqG + st.freqC = 1 ∧
      st.gc_content + st.au_content = 1 :=
  ⟨⟨by decide, by decide⟩,
    statistics_count_conservation ['A','U','G','C'] (by decide) (by decide)⟩

/-- C7: each of the ten tracked dimer frequencies of the extractor equals the
overlapping-occurrence count divided by length − 1 (0 when length ≤ 1), lies in
[0, 1], and the last ten entries of the feature vector of a non-empty input are
exactly these frequencies in the fixed dimer order. -/
theorem dimer_frequency_spec (s : List Char) (d : Char × Char) (_hd : d ∈ dimers) :
    dimerFreq (upper s) d =
      (if 1 < (upper s).length then
        (dimerCount (upper s) d : ℚ) / (((upper s).length : ℚ) - 1) else 0) ∧
    0 ≤ dimerFreq (upper s) d ∧ dimerFreq (upper s) d ≤ 1 ∧
    (s.length ≤ 1 → dimerFreq (upper s) d = 0) ∧
    (s ≠ [] → (_extract_features s).drop 9 = dimers.map (dimerFreq (upper s))) := by
  refine ⟨rfl, dimerFreq_nonneg _ _, dimerFreq_le_one _ _, ?_, ?_⟩
  · intro h
    unfold dimerFreq
    rw [if_neg (by rw [length_upper]; omega)]
  · intro hne
    simp only [_extract_features]
    rw [if_neg (by rw [length_upper]; exact fun e => hne (List.length_eq_zero.mp e))]
    rfl

/-- C7 witness: the dimer AA on the sequence AAA, whose frequency is 2/2 = 1. -/
theorem dimer_frequency_spec_witness :
    (('A','A') ∈ dimers) ∧
      0 ≤ dimerFreq (upper ['A','A','A']) ('A','A') ∧
      dimerFreq (upper ['A','A','A']) ('A','A') ≤ 1 := by
  have h := dimer_frequency_spec ['A','A','A'] ('A','A') (by decide)
  exact ⟨by decide, h.2.1, h.2.2.1⟩

/-- C10: get_sequence_statistics uppercases but does not trim — for a
non-empty input whose first or last character is whitespace, the reported
length counts the whitespace and the base counts sum to strictly less than
that length. -/
theorem statistics_no_trim (s : List Char) (c : Char)
    (hend : s.head? = some c ∨ s.getLast? = some c) (hsp : isPySpace c = true) :
    ∃ st, get_sequence_statistics s = Option.some st ∧ st.length = s.length ∧
      st.countA + st.countU + st.countG + st.countC < st.length := by
  have hc : c ∈ s := by
    rcases hend with h | h
    · exact List.mem_of_mem_head? (by simp [h])
    · exact List.mem_of_mem_getLast? (by simp [h])
  obtain ⟨hup, hbad⟩ := space_char_facts c hsp
  have hne : s ≠ [] := List.ne_nil_of_mem hc
  have hlen : s.length ≠ 0 := fun e => hne (List.length_eq_zero.mp e)
  have hcu : c ∈ upper s := List.mem_map.mpr ⟨c, hc, hup⟩
  have hlt := counts_sum_lt_length hcu hbad
  refine ⟨{ length := (upper s).length
            countA := (upper s).count 'A'
            countU := (upper s).count 'U'
            countG := (upper s).count 'G'
            countC := (upper s).count 'C'
            freqA := ((upper s).count 'A' : ℚ) / ((upper s).length : ℚ)
            freqU := ((upper s).count 'U' : ℚ) / ((upper s).length : ℚ)
            freqG := ((upper s).count 'G' : ℚ) / ((upper s).length : ℚ)
            freqC := ((upper s).count 'C' : ℚ) / ((upper s).length : ℚ)
            gc_content := (((upper s).count 'G' + (upper s).count 'C' : Nat) : ℚ) /
              ((upper s).length : ℚ)
            au_content := (((upper s).count 'A' + (upper s).count 'U' : Nat) : ℚ) /
              ((upper s).length : ℚ)
            max_repeat_length := _check_repetitive_sequence (upper s) }, ?_, ?_, ?_⟩
  · simp only [get_sequence_statistics]
    rw [if_neg hne, if_neg (by rw [length_upper]; exact hlen)]
  · exact length_upper s
  · exact hlt

/-- C10 witness: a space followed by A — length 2 is reported but only one
character is counted. -/
theorem statistics_no_trim_witness :
    ((([' ','A'] : List Char).head? = some ' ' ∨
        ([' ','A'] : List Char).getLast? = some ' ') ∧ isPySpace ' ' = true) ∧
    ∃ st, get_sequence_statistics [' ','A'] = Option.some st ∧
      st.length = ([' ','A'] : List Char).length ∧
      st.countA + st.countU + st.countG + st.countC < st.length :=
  ⟨⟨Or.inl rfl, rfl⟩, statistics_no_trim [' ','A'] ' ' (Or.inl rfl) rfl⟩

end RNAClassifier
